import Mathlib

/-!
Verification of the arbitrage-detection core of `giftbitrage_bot.py`.

Shallow embedding conventions:
* A Python string is modelled as its list of Unicode codepoints (`Str := List Nat`),
  so no character-literal issues arise and all definitions are executable.
* Python floats are modelled as exact rationals (`ℚ`); the profit formulas are
  pure arithmetic so this is the idealized semantics of the code.
* A Python dict is modelled as an association list read through `List.lookup`
  (first binding wins; the dicts built by the code never hold duplicate keys).
* A value that may be missing, `None`, or unparseable as a number is modelled
  as an `Option`; the truthiness test `if not name` is modelled by `falsyNone`,
  which also maps the empty string to `none`.
-/

/-- A Python string, as its list of Unicode codepoints. -/
abbrev Str := List Nat

/-- Characters removed by `normalise_name`'s regex `[\s\-'’]`: the ASCII
whitespace characters matched by `\s` (space, tab, LF, VT, FF, CR),
the hyphen (45), the apostrophe (39) and the typographic apostrophe (8217).
(The Unicode-only whitespace codepoints also matched by Python's `\s` are
outside the alphabet used anywhere in this development.) -/
def strippedChar (n : Nat) : Bool :=
  n = 32 || n = 9 || n = 10 || n = 11 || n = 12 || n = 13 ||
  n = 45 || n = 39 || n = 8217

/-- `str.lower()` on one codepoint, for the ASCII range (the only case
mapping exercised by the names this program handles). -/
def lowerChar (n : Nat) : Nat :=
  if 65 ≤ n ∧ n ≤ 90 then n + 32 else n

/-- `normalise_name`: `re.sub(r"[\s\-'’]", "", name).lower()` — strip
whitespace, hyphens and apostrophes, then lower-case. -/
def normalise_name (name : Str) : Str :=
  (name.filter fun c => ! strippedChar c).map lowerChar

/-- `COMMISSION_RATE_TONNEL = 0.06`. -/
def COMMISSION_RATE_TONNEL : ℚ := 6 / 100

/-- `COMMISSION_RATE_PORTALS = 0.05`. -/
def COMMISSION_RATE_PORTALS : ℚ := 5 / 100

/-- `TRANSFER_FEE = 0.15`. -/
def TRANSFER_FEE : ℚ := 15 / 100

/-- The market tags used in `market_buy` / `market_sell` fields:
`"Tonnel"`, `"Portals"`, `"Tonnel (auction)"`. -/
inductive Market where
  | tonnel
  | portals
  | tonnelAuction
deriving DecidableEq, Repr

/-- The commission rate charged by each market tag (auctions are hosted on
Tonnel and pay the Tonnel rate). -/
def commission : Market → ℚ
  | .tonnel => COMMISSION_RATE_TONNEL
  | .portals => COMMISSION_RATE_PORTALS
  | .tonnelAuction => COMMISSION_RATE_TONNEL

/-- One Tonnel plain-listing record, after boundary parsing: `name` is the
`"name"` entry (`none` when absent or `None`), `price` is the `"price"` entry
when it parses as a number, and `signature` is the truthiness of the
`"signature"` entry (absent / empty ⇒ `false`). -/
structure Gift where
  name : Option Str
  price : Option ℚ
  signature : Bool
deriving DecidableEq, Repr

/-- The output record `GiftCandidate` of the Python code. -/
structure GiftCandidate where
  name : Str
  model : Str
  backdrop : Str
  symbol : Str
  price_buy : ℚ
  price_sell : ℚ
  profit_absolute : ℚ
  profit_percent : ℚ
  market_buy : Market
  market_sell : Market
  clean : Bool
deriving DecidableEq, Repr

/-- Python truthiness of an optional string: `None` and `""` are falsy. -/
def falsyNone (o : Option Str) : Option Str :=
  match o with
  | none => none
  | some s => if s = [] then none else some s

-- ---------------------------------------------------------------------------
-- Dict helpers (Python dict as association list, first binding wins)
-- ---------------------------------------------------------------------------

/-- In-place dict assignment to an existing key: replace the binding of `k`. -/
def setKey {α β : Type} [BEq α] (m : List (α × β)) (k : α) (v : β) :
    List (α × β) :=
  m.map fun p => if p.1 == k then (k, v) else p

/-- Python `d[k] = v`: overwrite when present, append when absent. -/
def dictSet {α β : Type} [BEq α] (m : List (α × β)) (k : α) (v : β) :
    List (α × β) :=
  if (m.lookup k).isSome then setKey m k v else m ++ [(k, v)]

-- ---------------------------------------------------------------------------
-- calculate_flips and the maps it builds
-- ---------------------------------------------------------------------------

/-- One step of the `clean_status` loop of `calculate_flips`
(`clean_status.setdefault(short_name, not bool(signature))`). -/
def csStep (m : List (Str × Bool)) (g : Gift) : List (Str × Bool) :=
  match falsyNone g.name with
  | none => m
  | some n =>
    let short := normalise_name n
    if (m.lookup short).isSome then m else m ++ [(short, ! g.signature)]

/-- The `clean_status` map built at the top of `calculate_flips`
(first listing of each gift wins, via `setdefault`). -/
def calc_clean_status (tonnel_gifts : List Gift) : List (Str × Bool) :=
  tonnel_gifts.foldl csStep []

/-- One step of the `tonnel_floors` loop of `calculate_flips`: record the
minimum parsed price seen for each normalised name. -/
def tfStep (m : List (Str × ℚ)) (g : Gift) : List (Str × ℚ) :=
  match falsyNone g.name with
  | none => m
  | some n =>
    match g.price with
    | none => m
    | some price =>
      let short := normalise_name n
      match m.lookup short with
      | none => m ++ [(short, price)]
      | some current => if price < current then setKey m short price else m

/-- The per-gift Tonnel floor map built inside `calculate_flips`. -/
def tonnel_floors (tonnel_gifts : List Gift) : List (Str × ℚ) :=
  tonnel_gifts.foldl tfStep []

/-- The tail of the `calculate_flips` join body, after the buy/sell direction
has been fixed: compute cost and proceeds with each market's commission
(no transfer fee — the function is legacy), guard `cost == 0`, filter on
`profit_percent < min_profit_percent`, and build the candidate. -/
def flipFinish (short : Str) (price_buy price_sell : ℚ)
    (market_buy market_sell : Market) (clean : Bool)
    (min_profit_percent : ℚ) : Option GiftCandidate :=
  let cost :=
    if market_buy = .tonnel then price_buy * (1 + COMMISSION_RATE_TONNEL)
    else price_buy * (1 + COMMISSION_RATE_PORTALS)
  let proceeds :=
    if market_sell = .tonnel then price_sell * (1 - COMMISSION_RATE_TONNEL)
    else price_sell * (1 - COMMISSION_RATE_PORTALS)
  let profit_absolute := proceeds - cost
  if cost = 0 then none
  else
    let profit_percent := profit_absolute / cost * 100
    if profit_percent < min_profit_percent then none
    else
      some ⟨short, [], [], [], cost, price_sell, profit_absolute,
        profit_percent, market_buy, market_sell, clean⟩

/-- The body of the `calculate_flips` join loop for one key of the
intersection: read both floors, pick the lower price as the buy side
(equal prices fall to the final `else: continue`), then `flipFinish`. -/
def flipOne (tf pf : List (Str × ℚ)) (cs : List (Str × Bool))
    (min_profit_percent : ℚ) (short : Str) : Option GiftCandidate :=
  match tf.lookup short, pf.lookup short with
  | some price_tonnel, some price_portal =>
    if price_tonnel < price_portal then
      flipFinish short price_tonnel price_portal .tonnel .portals
        ((cs.lookup short).getD true) min_profit_percent
    else if price_portal < price_tonnel then
      flipFinish short price_portal price_tonnel .portals .tonnel true
        min_profit_percent
    else none
  | _, _ => none

/-- Stable descending sort by `profit_absolute`
(`opportunities.sort(key=..., reverse=True)`; Python's sort is stable). -/
def sortByProfitDesc (l : List GiftCandidate) : List GiftCandidate :=
  l.mergeSort fun a b => decide (b.profit_absolute ≤ a.profit_absolute)

/-- `calculate_flips`: the legacy item-level cross-market strategy. The
Python loop runs over `set(tonnel_floors) & set(portal_floors)` in an
unspecified order and reads both dicts by key; we iterate the keys of
`tonnel_floors` in insertion order (the intersection is realised by the
lookup into `portal_floors` failing for absent keys), which produces the
same candidates, and the final stable sort is applied as in the source. -/
def calculate_flips (tonnel_gifts : List Gift)
    (portal_floors : List (Str × ℚ)) (min_profit_percent : ℚ) :
    List GiftCandidate :=
  let clean_status := calc_clean_status tonnel_gifts
  let tf := tonnel_floors tonnel_gifts
  sortByProfitDesc
    ((tf.map Prod.fst).filterMap
      (flipOne tf portal_floors clean_status min_profit_percent))


-- ---------------------------------------------------------------------------
-- calculate_model_flips
-- ---------------------------------------------------------------------------

/-- The body of the `calculate_model_flips` loop for one (gift, model) key of
the intersection of the two floor dicts.  A candidate arises only in the
`price_tonnel < price_portal` branch; `price_portal < price_tonnel` hits the
explicit liquidity-preference `continue`, and equality hits the final
`continue`.  The transfer fee is subtracted unconditionally here because the
buy market (`Tonnel`) and sell market (`Portals`) always differ in the only
branch that builds a candidate. -/
def modelFlipOne (t p : List ((Str × Str) × ℚ))
    (clean_status : Option (List (Str × Bool))) (min_profit_percent : ℚ)
    (key : Str × Str) : Option GiftCandidate :=
  match t.lookup key, p.lookup key with
  | some price_tonnel, some price_portal =>
    if price_tonnel < price_portal then
      let clean := match clean_status with
        | none => true
        | some m => (m.lookup key.1).getD true
      let cost := price_tonnel * (1 + COMMISSION_RATE_TONNEL)
      let proceeds := price_portal * (1 - COMMISSION_RATE_PORTALS)
      let profit_absolute := proceeds - cost - TRANSFER_FEE
      if cost ≤ 0 then none
      else
        let profit_percent := profit_absolute / cost * 100
        if profit_absolute < 0 ∨ profit_percent < min_profit_percent then none
        else some ⟨key.1, key.2, [], [], cost, price_portal, profit_absolute,
          profit_percent, .tonnel, .portals, clean⟩
    else none
  | _, _ => none

/-- `calculate_model_flips`: the gift-model-level strategy.  The Python loop
runs over `set(tonnel_model_floors) & set(portals_model_floors)` in an
unspecified order and reads both dicts by key; we iterate the keys of the
Tonnel dict (the intersection is realised by the failing lookup), then apply
the source's final stable sort. -/
def calculate_model_flips (tonnel_model_floors portals_model_floors :
    List ((Str × Str) × ℚ)) (min_profit_percent : ℚ)
    (clean_status : Option (List (Str × Bool))) : List GiftCandidate :=
  sortByProfitDesc
    ((tonnel_model_floors.map Prod.fst).filterMap
      (modelFlipOne tonnel_model_floors portals_model_floors clean_status
        min_profit_percent))

-- ---------------------------------------------------------------------------
-- calculate_auction_flips and calculate_portals_internal_flips
-- ---------------------------------------------------------------------------

/-- One Tonnel auction record after boundary parsing.  `highestBidAmount` is
`some v` exactly when the record's `highestBid` entry is a dict whose
`amount` parses as a number; `priceField` is the value of
`auction.get("price") or auction.get("startPrice")` when that parses.
Non-dict entries of the auctions list (skipped by every loop) are not
modelled. -/
structure Auction where
  gift_name : Option Str
  name : Option Str
  model : Option Str
  highestBidAmount : Option ℚ
  priceField : Option ℚ
  backdrop : Option Str
  symbol : Option Str
deriving DecidableEq, Repr

/-- `auction.get("gift_name") or auction.get("name")`, with the subsequent
falsiness test folded in. -/
def auctionGiftName (a : Auction) : Option Str :=
  match falsyNone a.gift_name with
  | some n => some n
  | none => falsyNone a.name

/-- The buy price of an auction: the highest bid when one parses, else the
`price`/`startPrice` fallback. -/
def auctionBuyPrice (a : Auction) : Option ℚ :=
  match a.highestBidAmount with
  | some v => some v
  | none => a.priceField

/-- The body of the `calculate_auction_flips` loop for one auction.  Note the
lookup into `portals_prices` uses the RAW `(gift_name, model)` strings of the
auction, exactly as the source does (`portals_prices.get((gift_name,
model_name))`) — not their normalised forms. -/
def auctionFlipOne
    (portals_prices : List ((Str × Str) × (Option ℚ × Option ℚ)))
    (min_profit_percent : ℚ) (clean_status : List (Str × Bool))
    (a : Auction) : Option GiftCandidate :=
  match auctionGiftName a, falsyNone a.model with
  | some gift_name, some model_name =>
    match auctionBuyPrice a with
    | none => none
    | some buy_price =>
      match portals_prices.lookup (gift_name, model_name) with
      | none => none
      | some (floor_price, second_price) =>
        match (match second_price with
               | some s => some s
               | none => floor_price) with
        | none => none
        | some sell_price =>
          let revenue := sell_price * (1 - COMMISSION_RATE_PORTALS)
          let cost := buy_price * (1 + COMMISSION_RATE_TONNEL)
          let profit := revenue - cost - TRANSFER_FEE
          if profit ≤ 0 then none
          else
            let profit_percent := profit / cost * 100
            if profit_percent < min_profit_percent then none
            else some ⟨gift_name, model_name,
              (falsyNone a.backdrop).getD [], (falsyNone a.symbol).getD [],
              buy_price * (1 + COMMISSION_RATE_TONNEL), sell_price, profit,
              profit_percent, .tonnelAuction, .portals,
              (clean_status.lookup (normalise_name gift_name)).getD true⟩
  | _, _ => none

/-- `calculate_auction_flips`: Tonnel auction → Portals strategy (appends at
most one candidate per auction, in auction order; the source does not sort
here). -/
def calculate_auction_flips (auctions : List Auction)
    (portals_prices : List ((Str × Str) × (Option ℚ × Option ℚ)))
    (min_profit_percent : ℚ) (clean_status : List (Str × Bool)) :
    List GiftCandidate :=
  auctions.filterMap
    (auctionFlipOne portals_prices min_profit_percent clean_status)

/-- The body of the `calculate_portals_internal_flips` loop for one
`(gift, model) -> (floor, second)` entry. -/
def internalFlipOne (min_profit_percent : ℚ)
    (e : (Str × Str) × (Option ℚ × Option ℚ)) : Option GiftCandidate :=
  match e with
  | ((gift_name, model_name), (some floor_price, some second_price)) =>
    let revenue := second_price * (1 - COMMISSION_RATE_PORTALS)
    let cost := floor_price * (1 + COMMISSION_RATE_PORTALS)
    let profit := revenue - cost
    if profit ≤ 0 then none
    else
      let profit_percent := profit / cost * 100
      if profit_percent < min_profit_percent then none
      else some ⟨gift_name, model_name, [], [], cost, second_price, profit,
        profit_percent, .portals, .portals, true⟩
  | _ => none

/-- `calculate_portals_internal_flips`: buy the Portals floor, sell at the
Portals second floor; iterates the `portals_prices` dict in insertion
order. -/
def calculate_portals_internal_flips
    (portals_prices : List ((Str × Str) × (Option ℚ × Option ℚ)))
    (min_profit_percent : ℚ) : List GiftCandidate :=
  portals_prices.filterMap (internalFlipOne min_profit_percent)

-- ---------------------------------------------------------------------------
-- Pagination (fetch_tonnel_gifts / fetch_tonnel_auctions)
-- ---------------------------------------------------------------------------

/-- The response of one `getAuctions` page request, as the auctions loop
distinguishes them: a parsed list of records (`.ok`, where a falsy empty
response is `.ok []`), a raised exception (`.err`), or any non-list payload
(`.nonList` — string, dict or scalar; the auctions loop treats them all
alike).  Also reused, at `α := Gift`, for the well-shaped gift-page oracles
of `fetch_tonnel_gifts_listPages` below. -/
inductive Page (α : Type) where
  | ok (records : List α)
  | err
  | nonList
deriving DecidableEq

/-- The pagination loop of `fetch_tonnel_auctions`: request pages
`page, page+1, ...` while at most `fuel` pages remain; stop and keep what
was gathered when the request raises or the payload is falsy or not a list
(`if not page_auctions or not isinstance(page_auctions, list): break`);
after a list page, extend the results and stop once the page has fewer than
30 records (an empty `.ok []` page also stops there and contributes
nothing).  Returns the accumulated records together with the list of page
numbers requested. -/
def paginate {α : Type} (fetch : Nat → Page α) :
    Nat → Nat → List α × List Nat
  | _, 0 => ([], [])
  | page, fuel + 1 =>
    match fetch page with
    | .err => ([], [page])
    | .nonList => ([], [page])
    | .ok l =>
      if l.length < 30 then (l, [page])
      else
        let rest := paginate fetch (page + 1) fuel
        (l ++ rest.1, page :: rest.2)

/-- `fetch_tonnel_auctions`, abstracted over the `getAuctions` page oracle
(the price band is applied server-side inside the oracle). -/
def fetch_tonnel_auctions (fetch : Nat → Page Auction) (max_pages : Nat) :
    List Auction :=
  (paginate fetch 1 max_pages).1

/-- The pages requested by `fetch_tonnel_auctions`. -/
def fetch_tonnel_auctions_requests (fetch : Nat → Page Auction)
    (max_pages : Nat) : List Nat :=
  (paginate fetch 1 max_pages).2

/-- Auction page `p` is "full": it returns a parsed list of at least the
page size (30) records, so the auctions loop continues past it. -/
def goodPage {α : Type} (fetch : Nat → Page α) (p : Nat) : Prop :=
  ∃ l, fetch p = Page.ok l ∧ 30 ≤ l.length

/-- The gifts sampling performed by `scan_and_find` (its
`fetch_tonnel_gifts` call), modelled over oracles whose page responses are a
parsed list of records, a raised request, or a malformed payload that stops
the loop — the fragment of the gifts fetcher on which its loop coincides
with the auctions loop `paginate`.  The full embedding of
`fetch_tonnel_gifts`, including the truthy-dict and uncaught-`TypeError`
payload paths that fall outside this fragment, is given below; those paths
cannot affect the facts proved about `scan_and_find` here: an uncaught
`TypeError` aborts the whole scan before any sequence is returned, and the
key strings a truthy dict payload appends are skipped by the
`isinstance(gift, dict)` guard of the scan's cleanliness loop. -/
def fetch_tonnel_gifts_listPages (fetch : Nat → Page Gift)
    (max_pages : Nat) : List Gift :=
  (paginate fetch 1 max_pages).1

/-- The response of one `getGifts` page request, as `fetch_tonnel_gifts`
distinguishes them.  `raised`: the call raised and the `except` clause
breaks the loop.  `falsy`: a falsy non-collection payload (`None`, `0`,
`False`, `""`), caught by `if not gifts_page: break`; a falsy empty list or
dict is `.listPayload []` / `.dictPayload []`, caught by the same test.
`strPayload`: a truthy string, caught by the `isinstance(gifts_page, str)`
break.  `listPayload`: a list whose elements are parsed gift records, passed
to `all_gifts.extend`.  `dictPayload`: a truthy dict — `extend` iterates it
and appends its KEY strings, and `len(gifts_page)` counts its keys (other
truthy iterables behave like lists of their elements).  `nonIterable`: a
truthy non-iterable scalar — `all_gifts.extend(gifts_page)` raises an
uncaught `TypeError` (the `extend` at line 346 sits outside the `try`). -/
inductive GiftsPage where
  | raised
  | falsy
  | strPayload
  | listPayload (records : List Gift)
  | dictPayload (keys : List Str)
  | nonIterable
deriving DecidableEq

/-- One element of the list `fetch_tonnel_gifts` accumulates: a parsed gift
record from a list page, or a raw key string appended when a truthy dict
payload is `extend`-ed into the results. -/
inductive TonnelRecord where
  | parsed (g : Gift)
  | rawKey (s : Str)
deriving DecidableEq

/-- The pagination loop of `fetch_tonnel_gifts`, faithful to its error
paths (src/giftbitrage_bot.py:314-351): a raised request, a falsy payload
or a truthy string stops the loop keeping what was gathered; a truthy list
or dict is `extend`-ed into the results (a dict contributes its keys) and
the loop continues exactly when it held at least 30 elements; a truthy
non-iterable makes `extend` raise an uncaught `TypeError`, modelled as
`none` — nothing is returned, and records from earlier pages are lost with
the propagating exception.  The first component is the list of page numbers
requested (the request of the fatal page did happen before the raise). -/
def giftsPaginate (fetch : Nat → GiftsPage) :
    Nat → Nat → List Nat × Option (List TonnelRecord)
  | _, 0 => ([], some [])
  | page, fuel + 1 =>
    match fetch page with
    | .raised => ([page], some [])
    | .falsy => ([page], some [])
    | .strPayload => ([page], some [])
    | .nonIterable => ([page], none)
    | .listPayload l =>
      if l = [] then ([page], some [])
      else if l.length < 30 then ([page], some (l.map TonnelRecord.parsed))
      else
        let rest := giftsPaginate fetch (page + 1) fuel
        (page :: rest.1,
          rest.2.map (fun r => l.map TonnelRecord.parsed ++ r))
    | .dictPayload ks =>
      if ks = [] then ([page], some [])
      else if ks.length < 30 then ([page], some (ks.map TonnelRecord.rawKey))
      else
        let rest := giftsPaginate fetch (page + 1) fuel
        (page :: rest.1,
          rest.2.map (fun r => ks.map TonnelRecord.rawKey ++ r))

/-- `fetch_tonnel_gifts`, abstracted over the `getGifts` page oracle (price
band applied server-side inside the oracle): `some` the accumulated records
when the loop returns, `none` when a truthy non-iterable payload makes it
raise. -/
def fetch_tonnel_gifts (fetch : Nat → GiftsPage) (max_pages : Nat) :
    Option (List TonnelRecord) :=
  (giftsPaginate fetch 1 max_pages).2

/-- The pages requested by `fetch_tonnel_gifts`. -/
def fetch_tonnel_gifts_requests (fetch : Nat → GiftsPage)
    (max_pages : Nat) : List Nat :=
  (giftsPaginate fetch 1 max_pages).1

/-- Gift page `p` is "full": it returns a truthy list or dict payload with
at least the page size (30) elements (for a dict, `len` counts its keys),
so the gifts loop continues past it. -/
def goodGiftsPage (fetch : Nat → GiftsPage) (p : Nat) : Prop :=
  (∃ l, fetch p = GiftsPage.listPayload l ∧ 30 ≤ l.length) ∨
  (∃ ks, fetch p = GiftsPage.dictPayload ks ∧ 30 ≤ ks.length)

-- ---------------------------------------------------------------------------
-- fetch_portals_model_prices and scan_and_find
-- ---------------------------------------------------------------------------

/-- `fetch_portals_model_prices`, abstracted over the Portals `search`
oracle: the oracle returns `none` when the search raises or yields a
non-list (both cases record `(None, None)` in the source), and otherwise the
list of per-listing parsed prices (`none` for a non-dict item or a missing /
unparseable price, skipped by `filterMap id`).  Prices outside the band are
dropped; the floor is the first surviving price and the second price the
next one. -/
def fetch_portals_model_prices
    (searchResult : (Str × Str) → Option (List (Option ℚ)))
    (model_keys : List (Str × Str)) (min_price max_price : ℚ) :
    List ((Str × Str) × (Option ℚ × Option ℚ)) :=
  model_keys.map fun key =>
    match searchResult key with
    | none => (key, (none, none))
    | some listings =>
      let prices := (listings.filterMap id).filter fun price =>
        decide (min_price ≤ price) && decide (price ≤ max_price)
      (key, (prices.head?, prices[1]?))

/-- The Step-3 loop of `scan_and_find`: collect the normalised
`(gift, model)` keys of the auctions, first occurrence first, deduplicated
via the `seen_keys` set. -/
def collect_model_keys_aux :
    List Auction → List (Str × Str) → List (Str × Str)
  | [], _ => []
  | a :: rest, seen =>
    match auctionGiftName a, falsyNone a.model with
    | some gift, some model =>
      let key := (normalise_name gift, normalise_name model)
      if key ∈ seen then collect_model_keys_aux rest seen
      else key :: collect_model_keys_aux rest (key :: seen)
    | _, _ => collect_model_keys_aux rest seen

/-- The deduplicated model keys of Step 3 of `scan_and_find`. -/
def collect_model_keys (auctions : List Auction) : List (Str × Str) :=
  collect_model_keys_aux auctions []

/-- One step of the Step-5 cleanliness loop of `scan_and_find`:
`clean_status[short] = clean_status.get(short, True) and not bool(sig)`. -/
def scanCleanStep (m : List (Str × Bool)) (g : Gift) : List (Str × Bool) :=
  match falsyNone g.name with
  | none => m
  | some n =>
    let short := normalise_name n
    dictSet m short (((m.lookup short).getD true) && ! g.signature)

/-- The cleanliness map of Step 5 of `scan_and_find`: a gift name is clean
iff every sampled Tonnel listing with that name has a falsy signature. -/
def scan_clean_status (tonnel_gifts : List Gift) : List (Str × Bool) :=
  tonnel_gifts.foldl scanCleanStep []

/-- `scan_and_find`, from the point after the Portals auth refresh,
abstracted over the three marketplace oracles.  Mirrors the source: fetch at
most 5 auction pages, return early when no auctions or no model keys, fetch
the per-model Portals prices, sample at most 10 pages of plain Tonnel
listings for cleanliness, compute both strategies and stable-sort the
concatenation by descending absolute profit. -/
def scan_and_find (aucFetch : Nat → Page Auction)
    (searchResult : (Str × Str) → Option (List (Option ℚ)))
    (giftFetch : Nat → Page Gift)
    (min_price max_price min_profit_percent : ℚ) : List GiftCandidate :=
  let auctions := fetch_tonnel_auctions aucFetch 5
  if auctions = [] then []
  else
    let model_keys := collect_model_keys auctions
    if model_keys = [] then []
    else
      let portals_prices :=
        fetch_portals_model_prices searchResult model_keys min_price max_price
      let tonnel_gifts := fetch_tonnel_gifts_listPages giftFetch 10
      let clean_status := scan_clean_status tonnel_gifts
      sortByProfitDesc
        (calculate_auction_flips auctions portals_prices min_profit_percent
            clean_status ++
          calculate_portals_internal_flips portals_prices min_profit_percent)

-- ---------------------------------------------------------------------------
-- Concrete inputs used by witnesses and counterexamples
-- ---------------------------------------------------------------------------

/-- The one-character name "a" (already in canonical form). -/
def exName : Str := [97]

/-- The one-character model name "b" (already in canonical form). -/
def exModelName : Str := [98]

/-- A Tonnel listing of gift "a" at 10 TON, unsigned. -/
def exGift : Gift := ⟨some exName, some 10, false⟩

/-- A Portals floor map: gift "a" floors at 12 TON. -/
def exPortalFloors : List (Str × ℚ) := [(exName, 12)]

/-- The candidate `calculate_flips [exGift] exPortalFloors` produces:
cost 10·1.06 = 10.6, proceeds 12·0.95 = 11.4, profit 0.8,
profit percent 400/53 ≈ 7.547. -/
def exCand : GiftCandidate :=
  ⟨exName, [], [], [], 53/5, 12, 4/5, 400/53, .tonnel, .portals, true⟩

/-- A Tonnel listing of gift "a" at 95 TON, unsigned; against a Portals
floor of 106 the legacy item flip has exactly zero profit
(95·1.06 = 106·0.95 = 100.7). -/
def exGiftZeroProfit : Gift := ⟨some exName, some 95, false⟩

/-- A Portals floor map putting gift "a" at 106 TON. -/
def exFloors106 : List (Str × ℚ) := [(exName, 106)]

/-- The zero-profit candidate that `calculate_flips` emits for
`exGiftZeroProfit` / `exFloors106` at threshold 0. -/
def exCandZeroProfit : GiftCandidate :=
  ⟨exName, [], [], [], 1007/10, 106, 0, 0, .tonnel, .portals, true⟩

/-- A Tonnel model-floor map: ("a","b") at 10 TON. -/
def exTonnelModelFloors : List ((Str × Str) × ℚ) := [((exName, exModelName), 10)]

/-- A Portals model-floor map: ("a","b") at 20 TON. -/
def exPortalsModelFloors : List ((Str × Str) × ℚ) := [((exName, exModelName), 20)]

/-- The candidate `calculate_model_flips` produces for the two maps above:
cost 10.6, proceeds 19, profit 19 − 10.6 − 0.15 = 8.25, percent 4125/53. -/
def exModelCand : GiftCandidate :=
  ⟨exName, exModelName, [], [], 53/5, 20, 33/4, 4125/53, .tonnel, .portals,
    true⟩

/-- The raw display name "Plush Pepe" (differs from its canonical form). -/
def exRawName : Str := [80, 108, 117, 115, 104, 32, 80, 101, 112, 101]

/-- The raw model name "Vintage" (differs from its canonical form). -/
def exRawModel : Str := [86, 105, 110, 116, 97, 103, 101]

/-- An auction of "Plush Pepe" / "Vintage" with starting price 5 TON and no
bids. -/
def exRawAuction : Auction :=
  ⟨some exRawName, none, some exRawModel, none, some 5, none, none⟩

/-- A Portals depth map holding the CANONICAL key of `exRawAuction` with a
floor of 10 and a second quote of 12 — exactly what `scan_and_find` builds
for that auction. -/
def exCanonicalPrices : List ((Str × Str) × (Option ℚ × Option ℚ)) :=
  [((normalise_name exRawName, normalise_name exRawModel), (some 10, some 12))]

/-- An auction whose raw names are already canonical ("a"/"b"), starting
price 5 TON. -/
def exScanAuction : Auction :=
  ⟨some exName, none, some exModelName, none, some 5, none, none⟩

/-- Auction page oracle: every page returns the single auction above
(a short page, so pagination stops after page 1). -/
def exAucFetch : Nat → Page Auction := fun _ => .ok [exScanAuction]

/-- Portals search oracle: key ("a","b") has listings at 10 and 12 TON. -/
def exSearchResult : (Str × Str) → Option (List (Option ℚ)) := fun key =>
  if key = (exName, exModelName) then some [some 10, some 12] else none

/-- Plain-listing page oracle returning no records. -/
def exGiftFetchEmpty : Nat → Page Gift := fun _ => .ok []

/-- The auction→Portals candidate of the concrete scan: buy at 5 (cost
5.3), sell at the second quote 12, profit 11.4 − 5.3 − 0.15 = 5.95. -/
def exScanCandAuction : GiftCandidate :=
  ⟨exName, exModelName, [], [], 53/10, 12, 119/20, 5950/53, .tonnelAuction,
    .portals, true⟩

/-- The Portals-internal candidate of the concrete scan: buy the floor 10
(cost 10.5), sell at 12, profit 11.4 − 10.5 = 0.9. -/
def exScanCandInternal : GiftCandidate :=
  ⟨exName, exModelName, [], [], 21/2, 12, 9/10, 60/7, .portals, .portals,
    true⟩

/-- Gift page oracle: page 1 is full (30 copies of `exGift`), page 2 is
short (1 record), later pages would raise. -/
def exPagedGiftsFetch : Nat → GiftsPage := fun p =>
  if p = 1 then .listPayload (List.replicate 30 exGift)
  else if p = 2 then .listPayload [exGift] else .raised

/-- Auction page oracle: page 1 full, page 2 short, later pages raise. -/
def exPagedAucFetch : Nat → Page Auction := fun p =>
  if p = 1 then .ok (List.replicate 30 exScanAuction)
  else if p = 2 then .ok [exScanAuction] else .err

/-- Gift page oracle: page 1 full, page 2 a truthy one-key dict payload. -/
def exDictPayloadFetch : Nat → GiftsPage := fun p =>
  if p = 1 then .listPayload (List.replicate 30 exGift)
  else .dictPayload [exName]

/-- Gift page oracle: page 1 full, page 2 a truthy non-iterable payload. -/
def exTypeErrorFetch : Nat → GiftsPage := fun p =>
  if p = 1 then .listPayload (List.replicate 30 exGift) else .nonIterable

/-- Gift page oracle: page 1 full, page 2 raises (caught by the loop). -/
def exRaisedFetch : Nat → GiftsPage := fun p =>
  if p = 1 then .listPayload (List.replicate 30 exGift) else .raised

/-- Auction page oracle: page 1 full, page 2 a non-list payload. -/
def exNonListAucFetch : Nat → Page Auction := fun p =>
  if p = 1 then .ok (List.replicate 30 exScanAuction) else .nonList

-- ---------------------------------------------------------------------------
-- Theorems for claim C6
-- ---------------------------------------------------------------------------

theorem lowerChar_not_stripped {c : Nat} (h : strippedChar c = false) :
    strippedChar (lowerChar c) = false := by
  simp only [strippedChar, lowerChar, Bool.or_eq_false_iff,
    decide_eq_false_iff_not] at h ⊢
  split_ifs <;> omega

theorem lowerChar_idem (c : Nat) : lowerChar (lowerChar c) = lowerChar c := by
  simp only [lowerChar]
  split_ifs <;> omega

/-- C6: `normalise_name` is idempotent — applying it twice equals applying it
once — and it identifies `"Plush Pepe"`, `"plush-pepe"` and `"PlushPepe"`
(given below as their codepoint sequences). -/
theorem normalise_name_idempotent :
    (∀ x : Str, normalise_name (normalise_name x) = normalise_name x) ∧
    normalise_name [80, 108, 117, 115, 104, 32, 80, 101, 112, 101] =
      normalise_name [112, 108, 117, 115, 104, 45, 112, 101, 112, 101] ∧
    normalise_name [112, 108, 117, 115, 104, 45, 112, 101, 112, 101] =
      normalise_name [80, 108, 117, 115, 104, 80, 101, 112, 101] := by
  refine ⟨?_, by decide, by decide⟩
  intro x
  unfold normalise_name
  rw [List.filter_eq_self.mpr, List.map_map,
    show lowerChar ∘ lowerChar = lowerChar from funext lowerChar_idem]
  intro a ha
  obtain ⟨b, hb, rfl⟩ := List.mem_map.mp ha
  have hb' := (List.mem_filter.mp hb).2
  simp only [Bool.not_eq_true', Bool.not_eq_false] at hb' ⊢
  exact lowerChar_not_stripped hb'

-- ---------------------------------------------------------------------------
-- Specification lemmas for calculate_flips
-- ---------------------------------------------------------------------------

theorem mem_calculate_flips {gifts : List Gift} {pf : List (Str × ℚ)}
    {minp : ℚ} {c : GiftCandidate} :
    c ∈ calculate_flips gifts pf minp ↔
    ∃ k ∈ (tonnel_floors gifts).map Prod.fst,
      flipOne (tonnel_floors gifts) pf (calc_clean_status gifts) minp k
        = some c := by
  simp [calculate_flips, sortByProfitDesc, List.mem_mergeSort,
    List.mem_filterMap]

theorem flipFinish_spec {short : Str} {pb ps : ℚ} {mb ms : Market}
    {cl : Bool} {minp : ℚ} {c : GiftCandidate}
    (h : flipFinish short pb ps mb ms cl minp = some c) :
    c.name = short ∧ c.market_buy = mb ∧ c.market_sell = ms ∧
    c.price_sell = ps ∧ c.clean = cl ∧
    c.price_buy = (if mb = .tonnel then pb * (1 + COMMISSION_RATE_TONNEL)
      else pb * (1 + COMMISSION_RATE_PORTALS)) ∧
    c.profit_absolute =
      (if ms = .tonnel then ps * (1 - COMMISSION_RATE_TONNEL)
        else ps * (1 - COMMISSION_RATE_PORTALS)) - c.price_buy ∧
    c.price_buy ≠ 0 ∧
    c.profit_percent = c.profit_absolute / c.price_buy * 100 ∧
    ¬ c.profit_percent < minp := by
  simp only [flipFinish] at h
  split_ifs at h <;> injection h with h <;> subst h <;> simp_all

theorem flipOne_spec {tf pf : List (Str × ℚ)} {cs : List (Str × Bool)}
    {minp : ℚ} {k : Str} {c : GiftCandidate}
    (h : flipOne tf pf cs minp k = some c) :
    ∃ pt pp, tf.lookup k = some pt ∧ pf.lookup k = some pp ∧
      ((pt < pp ∧
        flipFinish k pt pp .tonnel .portals ((cs.lookup k).getD true) minp
          = some c) ∨
       (pp < pt ∧
        flipFinish k pp pt .portals .tonnel true minp = some c)) := by
  unfold flipOne at h
  split at h
  · rename_i pt pp htf hpf
    split_ifs at h with h1 h2
    · exact ⟨pt, pp, htf, hpf, Or.inl ⟨h1, h⟩⟩
    · exact ⟨pt, pp, htf, hpf, Or.inr ⟨h2, h⟩⟩
  · exact absurd h (by simp)


-- ---------------------------------------------------------------------------
-- Concrete evaluations of calculate_flips
-- ---------------------------------------------------------------------------

theorem calc_flips_ex_at5 :
    calculate_flips [exGift] exPortalFloors 5 = [exCand] := by
  norm_num +decide [calculate_flips, tonnel_floors, tfStep, calc_clean_status,
    csStep, falsyNone, normalise_name, exGift, exName, exPortalFloors, exCand,
    flipOne, flipFinish, sortByProfitDesc, List.lookup, List.mergeSort,
    List.filterMap, COMMISSION_RATE_TONNEL, COMMISSION_RATE_PORTALS,
    strippedChar, lowerChar]

theorem calc_flips_ex_at7 :
    calculate_flips [exGift] exPortalFloors 7 = [exCand] := by
  norm_num +decide [calculate_flips, tonnel_floors, tfStep, calc_clean_status,
    csStep, falsyNone, normalise_name, exGift, exName, exPortalFloors, exCand,
    flipOne, flipFinish, sortByProfitDesc, List.lookup, List.mergeSort,
    List.filterMap, COMMISSION_RATE_TONNEL, COMMISSION_RATE_PORTALS,
    strippedChar, lowerChar]

theorem calc_flips_zero_profit_eval :
    calculate_flips [exGiftZeroProfit] exFloors106 0 = [exCandZeroProfit] := by
  norm_num +decide [calculate_flips, tonnel_floors, tfStep, calc_clean_status,
    csStep, falsyNone, normalise_name, exGiftZeroProfit, exName, exFloors106,
    exCandZeroProfit, flipOne, flipFinish, sortByProfitDesc, List.lookup,
    List.mergeSort, List.filterMap, COMMISSION_RATE_TONNEL,
    COMMISSION_RATE_PORTALS, strippedChar, lowerChar]

-- ---------------------------------------------------------------------------
-- Theorems for claim C1
-- ---------------------------------------------------------------------------

/-- C1, counterexample to the claim as stated: with `commission_buy = 0.06`,
`commission_sell = 0.05`, `buy_price = 10`, `sell_price = 12`,
`calculate_flips` keeps the candidate at `min_profit_percent = 7` (the claim
says it is dropped there) and its profit is not `0.65` (the code never
subtracts the transfer fee, so the profit is `11.4 − 10.6 = 0.8`). -/
theorem calculate_flips_kept_at_seven :
    calculate_flips [exGift] exPortalFloors 7 ≠ [] ∧
    ∀ c ∈ calculate_flips [exGift] exPortalFloors 5,
      c.profit_absolute ≠ 13/20 := by
  refine ⟨by rw [calc_flips_ex_at7]; simp, ?_⟩
  intro c hc
  rw [calc_flips_ex_at5] at hc
  rw [List.mem_singleton] at hc
  subst hc
  norm_num [exCand]

/-- C1, amended: for every joined key, `calculate_flips` (a legacy function)
computes `profit = sell_price * (1 - commission[sell_market]) -
buy_price * (1 + commission[buy_market])` WITHOUT subtracting the transfer
fee, although buy and sell markets always differ; on the concrete inputs
(`buy = 10` on Tonnel at 6%, `sell = 12` on Portals at 5%) the profit is
`0.8` and the candidate is kept both at `min_profit_percent = 5` and at
`min_profit_percent = 7`. -/
theorem calculate_flips_profit_formula :
    (∀ (gifts : List Gift) (pf : List (Str × ℚ)) (minp : ℚ)
      (c : GiftCandidate), c ∈ calculate_flips gifts pf minp →
      c.market_buy ≠ c.market_sell ∧
      ∃ buy, c.price_buy = buy * (1 + commission c.market_buy) ∧
        c.profit_absolute =
          c.price_sell * (1 - commission c.market_sell) -
            buy * (1 + commission c.market_buy)) ∧
    (calculate_flips [exGift] exPortalFloors 5).map
      (fun c => c.profit_absolute) = [4/5] ∧
    (calculate_flips [exGift] exPortalFloors 7).map
      (fun c => c.profit_absolute) = [4/5] := by
  refine ⟨?_, by rw [calc_flips_ex_at5]; rfl, by rw [calc_flips_ex_at7]; rfl⟩
  intro gifts pf minp c hc
  obtain ⟨k, hk, hone⟩ := mem_calculate_flips.mp hc
  obtain ⟨pt, pp, htf, hpf, hdir⟩ := flipOne_spec hone
  rcases hdir with ⟨hlt, hfin⟩ | ⟨hlt, hfin⟩ <;>
    obtain ⟨hname, hmb, hms, hsell, hcl, hbuy, hprof, hne, hpct, hmin⟩ :=
      flipFinish_spec hfin
  · refine ⟨by rw [hmb, hms]; simp, pt, ?_, ?_⟩
    · rw [hmb]
      simpa [commission] using hbuy
    · rw [hprof, hbuy, hsell, hmb, hms]
      simp [commission]
  · refine ⟨by rw [hmb, hms]; simp, pp, ?_, ?_⟩
    · rw [hmb]
      simpa [commission] using hbuy
    · rw [hprof, hbuy, hsell, hmb, hms]
      simp [commission]

/-- C1 witness: the profit-formula part of `calculate_flips_profit_formula`,
instantiated at the concrete candidate of the concrete run. -/
theorem calculate_flips_profit_formula_witness :
    exCand.market_buy ≠ exCand.market_sell ∧
    ∃ buy, exCand.price_buy = buy * (1 + commission exCand.market_buy) ∧
      exCand.profit_absolute =
        exCand.price_sell * (1 - commission exCand.market_sell) -
          buy * (1 + commission exCand.market_buy) :=
  calculate_flips_profit_formula.1 [exGift] exPortalFloors 5 exCand
    (by rw [calc_flips_ex_at5]; exact List.mem_singleton_self _)

-- ---------------------------------------------------------------------------
-- Theorems for claim C5
-- ---------------------------------------------------------------------------

/-- C5: in the item-level join of `calculate_flips`, a key whose two floor
prices are equal produces no candidate; every produced candidate comes from
a joined key with distinct prices, the lower price is the buy side (with the
buy market's commission added to form the cost) and the higher price is the
sell side. -/
theorem item_join_equal_prices_dropped :
    ∀ (gifts : List Gift) (pf : List (Str × ℚ)) (minp : ℚ),
    (∀ k v, (tonnel_floors gifts).lookup k = some v → pf.lookup k = some v →
      ∀ c ∈ calculate_flips gifts pf minp, c.name ≠ k) ∧
    (∀ c ∈ calculate_flips gifts pf minp, ∃ pt pp,
      (tonnel_floors gifts).lookup c.name = some pt ∧
      pf.lookup c.name = some pp ∧ pt ≠ pp ∧
      (pt < pp → c.market_buy = .tonnel ∧ c.market_sell = .portals ∧
        c.price_sell = pp ∧
        c.price_buy = pt * (1 + COMMISSION_RATE_TONNEL)) ∧
      (pp < pt → c.market_buy = .portals ∧ c.market_sell = .tonnel ∧
        c.price_sell = pt ∧
        c.price_buy = pp * (1 + COMMISSION_RATE_PORTALS))) := by
  intro gifts pf minp
  have h2 : ∀ c ∈ calculate_flips gifts pf minp, ∃ pt pp,
      (tonnel_floors gifts).lookup c.name = some pt ∧
      pf.lookup c.name = some pp ∧ pt ≠ pp ∧
      (pt < pp → c.market_buy = .tonnel ∧ c.market_sell = .portals ∧
        c.price_sell = pp ∧
        c.price_buy = pt * (1 + COMMISSION_RATE_TONNEL)) ∧
      (pp < pt → c.market_buy = .portals ∧ c.market_sell = .tonnel ∧
        c.price_sell = pt ∧
        c.price_buy = pp * (1 + COMMISSION_RATE_PORTALS)) := by
    intro c hc
    obtain ⟨k, hk, hone⟩ := mem_calculate_flips.mp hc
    obtain ⟨pt, pp, htf, hpf, hdir⟩ := flipOne_spec hone
    rcases hdir with ⟨hlt, hfin⟩ | ⟨hlt, hfin⟩ <;>
      obtain ⟨hname, hmb, hms, hsell, hcl, hbuy, hprof, hne, hpct, hmin⟩ :=
        flipFinish_spec hfin
    · subst hname
      refine ⟨pt, pp, htf, hpf, ne_of_lt hlt, fun _ => ⟨hmb, hms, hsell, ?_⟩,
        fun hgt => absurd hlt (lt_asymm hgt)⟩
      simpa using hbuy
    · subst hname
      refine ⟨pt, pp, htf, hpf, (ne_of_lt hlt).symm,
        fun hgt => absurd hlt (lt_asymm hgt),
        fun _ => ⟨hmb, hms, hsell, ?_⟩⟩
      simpa using hbuy
  refine ⟨?_, h2⟩
  intro k v htf hpf c hc heq
  obtain ⟨pt, pp, htf', hpf', hne, -, -⟩ := h2 c hc
  rw [heq, htf] at htf'
  rw [heq, hpf] at hpf'
  injection htf' with h1
  injection hpf' with h2'
  exact hne (h1.symm.trans h2')

/-- C5 witness: the joined-key description of
`item_join_equal_prices_dropped`, instantiated at the candidate of the
concrete run (Tonnel 10 vs Portals 12). -/
theorem item_join_equal_prices_dropped_witness :
    ∃ pt pp, (tonnel_floors [exGift]).lookup exCand.name = some pt ∧
      exPortalFloors.lookup exCand.name = some pp ∧ pt ≠ pp ∧
      (pt < pp → exCand.market_buy = .tonnel ∧
        exCand.market_sell = .portals ∧ exCand.price_sell = pp ∧
        exCand.price_buy = pt * (1 + COMMISSION_RATE_TONNEL)) ∧
      (pp < pt → exCand.market_buy = .portals ∧
        exCand.market_sell = .tonnel ∧ exCand.price_sell = pt ∧
        exCand.price_buy = pp * (1 + COMMISSION_RATE_PORTALS)) :=
  (item_join_equal_prices_dropped [exGift] exPortalFloors 5).2 exCand
    (by rw [calc_flips_ex_at5]; exact List.mem_singleton_self _)

-- ---------------------------------------------------------------------------
-- Specification lemmas for the other three strategies
-- ---------------------------------------------------------------------------

theorem mem_calculate_model_flips {t p : List ((Str × Str) × ℚ)} {minp : ℚ}
    {cs : Option (List (Str × Bool))} {c : GiftCandidate} :
    c ∈ calculate_model_flips t p minp cs ↔
    ∃ k ∈ t.map Prod.fst, modelFlipOne t p cs minp k = some c := by
  simp [calculate_model_flips, sortByProfitDesc, List.mem_mergeSort,
    List.mem_filterMap]

theorem modelFlipOne_spec {t p : List ((Str × Str) × ℚ)}
    {cs : Option (List (Str × Bool))} {minp : ℚ} {key : Str × Str}
    {c : GiftCandidate} (h : modelFlipOne t p cs minp key = some c) :
    c.name = key.1 ∧ c.model = key.2 ∧
    c.market_buy = .tonnel ∧ c.market_sell = .portals ∧
    0 < c.price_buy ∧ 0 ≤ c.profit_absolute ∧
    c.profit_percent = c.profit_absolute / c.price_buy * 100 ∧
    ¬ c.profit_percent < minp ∧
    ∃ pt pp, t.lookup key = some pt ∧ p.lookup key = some pp ∧ pt < pp ∧
      c.price_buy = pt * (1 + COMMISSION_RATE_TONNEL) ∧
      c.price_sell = pp := by
  simp only [modelFlipOne] at h
  split at h
  · rename_i pt pp ht hp
    split_ifs at h with h1 h2 h3
    rw [not_or] at h3
    injection h with h
    subst h
    exact ⟨rfl, rfl, rfl, rfl, not_le.mp h2, not_lt.mp h3.1, rfl, h3.2,
      pt, pp, ht, hp, h1, rfl, rfl⟩
  · exact absurd h (by simp)

theorem auctionFlipOne_spec
    {pp : List ((Str × Str) × (Option ℚ × Option ℚ))} {minp : ℚ}
    {cs : List (Str × Bool)} {a : Auction} {c : GiftCandidate}
    (h : auctionFlipOne pp minp cs a = some c) :
    0 < c.profit_absolute ∧
    c.profit_percent = c.profit_absolute / c.price_buy * 100 ∧
    ¬ c.profit_percent < minp := by
  simp only [auctionFlipOne] at h
  split at h
  · split at h
    · exact absurd h (by simp)
    · split at h
      · exact absurd h (by simp)
      · split at h
        · exact absurd h (by simp)
        · split_ifs at h with h1 h2
          injection h with h
          subst h
          exact ⟨not_le.mp h1, rfl, h2⟩
  · exact absurd h (by simp)

theorem internalFlipOne_spec {minp : ℚ}
    {e : (Str × Str) × (Option ℚ × Option ℚ)} {c : GiftCandidate}
    (h : internalFlipOne minp e = some c) :
    0 < c.profit_absolute ∧
    c.profit_percent = c.profit_absolute / c.price_buy * 100 ∧
    ¬ c.profit_percent < minp := by
  simp only [internalFlipOne] at h
  split at h
  · split_ifs at h with h1 h2
    injection h with h
    subst h
    exact ⟨not_le.mp h1, rfl, h2⟩
  · exact absurd h (by simp)

theorem calc_model_flips_ex_eval :
    calculate_model_flips exTonnelModelFloors exPortalsModelFloors 0 none
      = [exModelCand] := by
  norm_num +decide [calculate_model_flips, modelFlipOne, exTonnelModelFloors,
    exPortalsModelFloors, exModelCand, exName, exModelName, sortByProfitDesc,
    List.lookup, List.mergeSort, List.filterMap, COMMISSION_RATE_TONNEL,
    COMMISSION_RATE_PORTALS, TRANSFER_FEE]

-- ---------------------------------------------------------------------------
-- Theorems for claim C3
-- ---------------------------------------------------------------------------

/-- C3, counterexample to the claim as stated: `calculate_flips` has no
non-positive-profit discard (it filters only on `profit_percent <
min_profit_percent` after guarding `cost == 0`), so at threshold 0 a
zero-profit candidate (buy 95 on Tonnel, sell 106 on Portals:
`95·1.06 = 106·0.95 = 100.7`) is emitted. -/
theorem zero_profit_candidate_kept :
    ∃ c ∈ calculate_flips [exGiftZeroProfit] exFloors106 0,
      c.profit_absolute ≤ 0 := by
  rw [calc_flips_zero_profit_eval]
  exact ⟨exCandZeroProfit, List.mem_singleton_self _, by
    norm_num [exCandZeroProfit]⟩

/-- C3, amended: every strategy computes `profit_percent = 100 * profit /
cost` and filters on the caller's threshold, but the guards differ:
`calculate_model_flips` discards `cost ≤ 0` and negative profit;
`calculate_auction_flips` and `calculate_portals_internal_flips` discard
non-positive profit but have no cost guard (so the division is guarded only
by the rational semantics here — in Python a zero cost would raise
`ZeroDivisionError`); `calculate_flips` guards only `cost == 0` and has no
profit-sign discard at all, so non-positive-profit candidates survive
whenever `min_profit_percent ≤ 0`. -/
theorem profit_guard_postconditions :
    (∀ (t p : List ((Str × Str) × ℚ)) (minp : ℚ)
      (cs : Option (List (Str × Bool))) (c : GiftCandidate),
      c ∈ calculate_model_flips t p minp cs →
      0 < c.price_buy ∧ 0 ≤ c.profit_absolute ∧
      c.profit_percent = 100 * c.profit_absolute / c.price_buy ∧
      ¬ c.profit_percent < minp) ∧
    (∀ (au : List Auction)
      (pp : List ((Str × Str) × (Option ℚ × Option ℚ))) (minp : ℚ)
      (cs : List (Str × Bool)) (c : GiftCandidate),
      c ∈ calculate_auction_flips au pp minp cs →
      0 < c.profit_absolute ∧
      c.profit_percent = 100 * c.profit_absolute / c.price_buy ∧
      ¬ c.profit_percent < minp) ∧
    (∀ (pp : List ((Str × Str) × (Option ℚ × Option ℚ))) (minp : ℚ)
      (c : GiftCandidate),
      c ∈ calculate_portals_internal_flips pp minp →
      0 < c.profit_absolute ∧
      c.profit_percent = 100 * c.profit_absolute / c.price_buy ∧
      ¬ c.profit_percent < minp) ∧
    (∀ (gifts : List Gift) (pf : List (Str × ℚ)) (minp : ℚ)
      (c : GiftCandidate),
      c ∈ calculate_flips gifts pf minp →
      c.price_buy ≠ 0 ∧
      c.profit_percent = 100 * c.profit_absolute / c.price_buy ∧
      ¬ c.profit_percent < minp) := by
  refine ⟨?_, ?_, ?_, ?_⟩
  · intro t p minp cs c hc
    obtain ⟨k, hk, hone⟩ := mem_calculate_model_flips.mp hc
    obtain ⟨-, -, -, -, hpos, hge, hpct, hmin, -⟩ := modelFlipOne_spec hone
    exact ⟨hpos, hge, by rw [hpct]; ring, hmin⟩
  · intro au pp minp cs c hc
    obtain ⟨a, ha, hone⟩ := List.mem_filterMap.mp hc
    obtain ⟨hpos, hpct, hmin⟩ := auctionFlipOne_spec hone
    exact ⟨hpos, by rw [hpct]; ring, hmin⟩
  · intro pp minp c hc
    obtain ⟨e, he, hone⟩ := List.mem_filterMap.mp hc
    obtain ⟨hpos, hpct, hmin⟩ := internalFlipOne_spec hone
    exact ⟨hpos, by rw [hpct]; ring, hmin⟩
  · intro gifts pf minp c hc
    obtain ⟨k, hk, hone⟩ := mem_calculate_flips.mp hc
    obtain ⟨pt, pp, -, -, hdir⟩ := flipOne_spec hone
    rcases hdir with ⟨-, hfin⟩ | ⟨-, hfin⟩ <;>
      obtain ⟨-, -, -, -, -, -, -, hne, hpct, hmin⟩ := flipFinish_spec hfin <;>
      exact ⟨hne, by rw [hpct]; ring, hmin⟩

/-- C3 witness: the `calculate_model_flips` guard facts of
`profit_guard_postconditions`, instantiated at the concrete model-flip
candidate. -/
theorem profit_guard_postconditions_witness :
    0 < exModelCand.price_buy ∧ 0 ≤ exModelCand.profit_absolute ∧
    exModelCand.profit_percent =
      100 * exModelCand.profit_absolute / exModelCand.price_buy ∧
    ¬ exModelCand.profit_percent < 0 :=
  profit_guard_postconditions.1 exTonnelModelFloors exPortalsModelFloors 0
    none exModelCand
    (by rw [calc_model_flips_ex_eval]; exact List.mem_singleton_self _)

-- ---------------------------------------------------------------------------
-- Theorems for claim C4
-- ---------------------------------------------------------------------------

/-- C4: `calculate_model_flips` only ever buys on Tonnel and sells on
Portals, and only when the Tonnel floor is strictly below the Portals floor;
a key whose Portals price is lower than or equal to its Tonnel price
produces no candidate. -/
theorem model_join_directional :
    ∀ (t p : List ((Str × Str) × ℚ)) (minp : ℚ)
      (cs : Option (List (Str × Bool))),
    (∀ c ∈ calculate_model_flips t p minp cs,
      c.market_buy = .tonnel ∧ c.market_sell = .portals ∧
      ∃ pt pp, t.lookup (c.name, c.model) = some pt ∧
        p.lookup (c.name, c.model) = some pp ∧ pt < pp) ∧
    (∀ k pt pp, t.lookup k = some pt → p.lookup k = some pp → pp ≤ pt →
      ∀ c ∈ calculate_model_flips t p minp cs,
        ¬ (c.name = k.1 ∧ c.model = k.2)) := by
  intro t p minp cs
  have h1 : ∀ c ∈ calculate_model_flips t p minp cs,
      c.market_buy = .tonnel ∧ c.market_sell = .portals ∧
      ∃ pt pp, t.lookup (c.name, c.model) = some pt ∧
        p.lookup (c.name, c.model) = some pp ∧ pt < pp := by
    intro c hc
    obtain ⟨k, hk, hone⟩ := mem_calculate_model_flips.mp hc
    obtain ⟨hn, hm, hmb, hms, -, -, -, -, pt, pp, ht, hp, hlt, -, -⟩ :=
      modelFlipOne_spec hone
    have hkey : (c.name, c.model) = k := by rw [hn, hm]
    exact ⟨hmb, hms, pt, pp, by rw [hkey]; exact ht, by rw [hkey]; exact hp,
      hlt⟩
  refine ⟨h1, ?_⟩
  intro k pt pp ht hp hle c hc ⟨hn, hm⟩
  obtain ⟨-, -, pt', pp', ht', hp', hlt⟩ := h1 c hc
  have hkey : (c.name, c.model) = k := by rw [hn, hm]
  rw [hkey, ht] at ht'
  rw [hkey, hp] at hp'
  injection ht' with e1
  injection hp' with e2
  rw [← e1, ← e2] at hlt
  exact absurd hle (not_le.mpr hlt)

/-- C4 witness: the directional facts of `model_join_directional`,
instantiated at the concrete model-flip candidate (Tonnel 10 < Portals
20). -/
theorem model_join_directional_witness :
    exModelCand.market_buy = .tonnel ∧
    exModelCand.market_sell = .portals ∧
    ∃ pt pp,
      exTonnelModelFloors.lookup (exModelCand.name, exModelCand.model)
        = some pt ∧
      exPortalsModelFloors.lookup (exModelCand.name, exModelCand.model)
        = some pp ∧ pt < pp :=
  (model_join_directional exTonnelModelFloors exPortalsModelFloors 0 none).1
    exModelCand
    (by rw [calc_model_flips_ex_eval]; exact List.mem_singleton_self _)

-- ---------------------------------------------------------------------------
-- Pagination lemmas
-- ---------------------------------------------------------------------------

theorem paginate_snd_spec {α : Type} (fetch : Nat → Page α) :
    ∀ (fuel start : Nat),
      (paginate fetch start fuel).2
        = List.range' start (paginate fetch start fuel).2.length ∧
      (paginate fetch start fuel).2.length ≤ fuel ∧
      ∀ p, p ∈ (paginate fetch start fuel).2 ↔
        (start ≤ p ∧ p < start + fuel ∧
          ∀ r, start ≤ r → r < p → goodPage fetch r) := by
  intro fuel
  induction fuel with
  | zero =>
    intro start
    refine ⟨rfl, Nat.le_refl 0, ?_⟩
    intro p
    simp only [paginate, List.not_mem_nil, false_iff, not_and]
    intro h1 h2
    omega
  | succ f ih =>
    intro start
    simp only [paginate]
    cases hf : fetch start with
    | err =>
      refine ⟨rfl, by simp, ?_⟩
      intro p
      simp only [List.mem_singleton]
      constructor
      · rintro rfl
        exact ⟨Nat.le_refl _, by omega, fun r h1 h2 => absurd h2 (by omega)⟩
      · rintro ⟨h1, h2, hall⟩
        by_contra hne
        obtain ⟨l, hl, -⟩ := hall start (Nat.le_refl _) (by omega)
        rw [hf] at hl
        exact Page.noConfusion hl
    | nonList =>
      refine ⟨rfl, by simp, ?_⟩
      intro p
      simp only [List.mem_singleton]
      constructor
      · rintro rfl
        exact ⟨Nat.le_refl _, by omega, fun r h1 h2 => absurd h2 (by omega)⟩
      · rintro ⟨h1, h2, hall⟩
        by_contra hne
        obtain ⟨l, hl, -⟩ := hall start (Nat.le_refl _) (by omega)
        rw [hf] at hl
        exact Page.noConfusion hl
    | ok l =>
      by_cases hl : l.length < 30
      · simp only [if_pos hl]
        refine ⟨rfl, by simp, ?_⟩
        intro p
        simp only [List.mem_singleton]
        constructor
        · rintro rfl
          exact ⟨Nat.le_refl _, by omega, fun r h1 h2 => absurd h2 (by omega)⟩
        · rintro ⟨h1, h2, hall⟩
          by_contra hne
          obtain ⟨l', hl', hlen⟩ := hall start (Nat.le_refl _) (by omega)
          rw [hf] at hl'
          injection hl' with e
          rw [← e] at hlen
          omega
      · simp only [if_neg hl]
        obtain ⟨ih1, ih2, ih3⟩ := ih (start + 1)
        refine ⟨?_, by simp; omega, ?_⟩
        · simp only [List.length_cons]
          rw [List.range'_succ]
          exact congrArg _ ih1
        · intro p
          simp only [List.mem_cons]
          constructor
          · rintro (rfl | hp)
            · exact ⟨Nat.le_refl _, by omega, fun r h1 h2 => absurd h2 (by omega)⟩
            · obtain ⟨hp1, hp2, hall'⟩ := (ih3 p).mp hp
              refine ⟨by omega, by omega, ?_⟩
              intro r hr1 hr2
              by_cases hrs : r = start
              · exact ⟨l, by rw [hrs]; exact hf, Nat.le_of_not_lt hl⟩
              · exact hall' r (by omega) hr2
          · rintro ⟨h1, h2, hall⟩
            by_cases hps : p = start
            · exact Or.inl hps
            · refine Or.inr ((ih3 p).mpr ⟨by omega, by omega, ?_⟩)
              intro r hr1 hr2
              exact hall r (by omega) hr2

theorem mem_stop_singleton_iff {P : Nat → Prop} {start : Nat}
    (hbad : ¬ P start) (f : Nat) :
    ∀ p : Nat, p ∈ [start] ↔
      (start ≤ p ∧ p < start + (f + 1) ∧
        ∀ r, start ≤ r → r < p → P r) := by
  intro p
  simp only [List.mem_singleton]
  constructor
  · rintro rfl
    exact ⟨Nat.le_refl _, by omega, fun r h1 h2 => absurd h2 (by omega)⟩
  · rintro ⟨h1, h2, hall⟩
    by_contra hne
    exact hbad (hall start (Nat.le_refl _) (by omega))

theorem requests_spec_stop {fetch : Nat → GiftsPage} {start f : Nat}
    (hbad : ¬ goodGiftsPage fetch start) :
    ([start] : List Nat) = List.range' start ([start] : List Nat).length ∧
    ([start] : List Nat).length ≤ f + 1 ∧
    ∀ p, p ∈ ([start] : List Nat) ↔
      (start ≤ p ∧ p < start + (f + 1) ∧
        ∀ r, start ≤ r → r < p → goodGiftsPage fetch r) :=
  ⟨rfl, by simp, mem_stop_singleton_iff hbad f⟩

theorem giftsPaginate_requests_spec (fetch : Nat → GiftsPage) :
    ∀ (fuel start : Nat),
      (giftsPaginate fetch start fuel).1
        = List.range' start (giftsPaginate fetch start fuel).1.length ∧
      (giftsPaginate fetch start fuel).1.length ≤ fuel ∧
      ∀ p, p ∈ (giftsPaginate fetch start fuel).1 ↔
        (start ≤ p ∧ p < start + fuel ∧
          ∀ r, start ≤ r → r < p → goodGiftsPage fetch r) := by
  intro fuel
  induction fuel with
  | zero =>
    intro start
    refine ⟨rfl, Nat.le_refl 0, ?_⟩
    intro p
    simp only [giftsPaginate, List.not_mem_nil, false_iff, not_and]
    intro h1 h2
    omega
  | succ f ih =>
    intro start
    cases hf : fetch start with
    | raised =>
      have hv : giftsPaginate fetch start (f + 1) = ([start], some []) := by
        simp only [giftsPaginate, hf]
      rw [hv]
      refine requests_spec_stop (fun hg => ?_)
      rcases hg with ⟨l, e, -⟩ | ⟨ks, e, -⟩ <;> rw [hf] at e <;>
        exact GiftsPage.noConfusion e
    | falsy =>
      have hv : giftsPaginate fetch start (f + 1) = ([start], some []) := by
        simp only [giftsPaginate, hf]
      rw [hv]
      refine requests_spec_stop (fun hg => ?_)
      rcases hg with ⟨l, e, -⟩ | ⟨ks, e, -⟩ <;> rw [hf] at e <;>
        exact GiftsPage.noConfusion e
    | strPayload =>
      have hv : giftsPaginate fetch start (f + 1) = ([start], some []) := by
        simp only [giftsPaginate, hf]
      rw [hv]
      refine requests_spec_stop (fun hg => ?_)
      rcases hg with ⟨l, e, -⟩ | ⟨ks, e, -⟩ <;> rw [hf] at e <;>
        exact GiftsPage.noConfusion e
    | nonIterable =>
      have hv : giftsPaginate fetch start (f + 1) = ([start], none) := by
        simp only [giftsPaginate, hf]
      rw [hv]
      refine requests_spec_stop (fun hg => ?_)
      rcases hg with ⟨l, e, -⟩ | ⟨ks, e, -⟩ <;> rw [hf] at e <;>
        exact GiftsPage.noConfusion e
    | listPayload l =>
      by_cases he : l = []
      · have hv : giftsPaginate fetch start (f + 1) = ([start], some []) := by
          simp only [giftsPaginate, hf]
          simp [he]
        rw [hv]
        refine requests_spec_stop (fun hg => ?_)
        rcases hg with ⟨l', e, hlen⟩ | ⟨ks, e, -⟩ <;> rw [hf] at e
        · injection e with e1
          rw [← e1, he] at hlen
          simp at hlen
        · exact GiftsPage.noConfusion e
      · by_cases hl : l.length < 30
        · have hv : giftsPaginate fetch start (f + 1)
              = ([start], some (l.map TonnelRecord.parsed)) := by
            simp only [giftsPaginate, hf]
            simp [he, hl]
          rw [hv]
          refine requests_spec_stop (fun hg => ?_)
          rcases hg with ⟨l', e, hlen⟩ | ⟨ks, e, -⟩ <;> rw [hf] at e
          · injection e with e1
            rw [← e1] at hlen
            omega
          · exact GiftsPage.noConfusion e
        · have hv : giftsPaginate fetch start (f + 1)
              = (start :: (giftsPaginate fetch (start + 1) f).1,
                  ((giftsPaginate fetch (start + 1) f).2).map
                    (fun r => l.map TonnelRecord.parsed ++ r)) := by
            simp only [giftsPaginate, hf]
            simp [he, hl]
          rw [hv]
          obtain ⟨ih1, ih2, ih3⟩ := ih (start + 1)
          refine ⟨?_, by simp; omega, ?_⟩
          · simp only [List.length_cons]
            rw [List.range'_succ]
            exact congrArg _ ih1
          · intro p
            simp only [List.mem_cons]
            constructor
            · rintro (rfl | hp)
              · exact ⟨Nat.le_refl _, by omega,
                  fun r h1 h2 => absurd h2 (by omega)⟩
              · obtain ⟨hp1, hp2, hall'⟩ := (ih3 p).mp hp
                refine ⟨by omega, by omega, ?_⟩
                intro r hr1 hr2
                by_cases hrs : r = start
                · exact Or.inl ⟨l, by rw [hrs]; exact hf,
                    Nat.le_of_not_lt hl⟩
                · exact hall' r (by omega) hr2
            · rintro ⟨h1, h2, hall⟩
              by_cases hps : p = start
              · exact Or.inl hps
              · refine Or.inr ((ih3 p).mpr ⟨by omega, by omega, ?_⟩)
                intro r hr1 hr2
                exact hall r (by omega) hr2
    | dictPayload ks =>
      by_cases he : ks = []
      · have hv : giftsPaginate fetch start (f + 1) = ([start], some []) := by
          simp only [giftsPaginate, hf]
          simp [he]
        rw [hv]
        refine requests_spec_stop (fun hg => ?_)
        rcases hg with ⟨l', e, -⟩ | ⟨ks', e, hlen⟩ <;> rw [hf] at e
        · exact GiftsPage.noConfusion e
        · injection e with e1
          rw [← e1, he] at hlen
          simp at hlen
      · by_cases hl : ks.length < 30
        · have hv : giftsPaginate fetch start (f + 1)
              = ([start], some (ks.map TonnelRecord.rawKey)) := by
            simp only [giftsPaginate, hf]
            simp [he, hl]
          rw [hv]
          refine requests_spec_stop (fun hg => ?_)
          rcases hg with ⟨l', e, -⟩ | ⟨ks', e, hlen⟩ <;> rw [hf] at e
          · exact GiftsPage.noConfusion e
          · injection e with e1
            rw [← e1] at hlen
            omega
        · have hv : giftsPaginate fetch start (f + 1)
              = (start :: (giftsPaginate fetch (start + 1) f).1,
                  ((giftsPaginate fetch (start + 1) f).2).map
                    (fun r => ks.map TonnelRecord.rawKey ++ r)) := by
            simp only [giftsPaginate, hf]
            simp [he, hl]
          rw [hv]
          obtain ⟨ih1, ih2, ih3⟩ := ih (start + 1)
          refine ⟨?_, by simp; omega, ?_⟩
          · simp only [List.length_cons]
            rw [List.range'_succ]
            exact congrArg _ ih1
          · intro p
            simp only [List.mem_cons]
            constructor
            · rintro (rfl | hp)
              · exact ⟨Nat.le_refl _, by omega,
                  fun r h1 h2 => absurd h2 (by omega)⟩
              · obtain ⟨hp1, hp2, hall'⟩ := (ih3 p).mp hp
                refine ⟨by omega, by omega, ?_⟩
                intro r hr1 hr2
                by_cases hrs : r = start
                · exact Or.inr ⟨ks, by rw [hrs]; exact hf,
                    Nat.le_of_not_lt hl⟩
                · exact hall' r (by omega) hr2
            · rintro ⟨h1, h2, hall⟩
              by_cases hps : p = start
              · exact Or.inl hps
              · refine Or.inr ((ih3 p).mpr ⟨by omega, by omega, ?_⟩)
                intro r hr1 hr2
                exact hall r (by omega) hr2

-- ---------------------------------------------------------------------------
-- Theorems for claims C7 and C8
-- ---------------------------------------------------------------------------

/-- C7: both paginated fetchers request pages `1, 2, ...` consecutively,
issue at most `max_pages` requests, and a page is requested exactly when it
is within budget and every earlier page was "full" — held at least the page
size of 30 elements: for `getAuctions` a parsed list of 30 or more records,
for `getGifts` a truthy list of 30 or more records or (faithfully to the
source's `extend`/`len` on a dict) a truthy dict payload with 30 or more
keys.  Hence pagination stops exactly at the first page with fewer than 30
elements; a raised request, a falsy or string payload, a non-list auctions
payload, or the uncaught `TypeError` of a truthy non-iterable gifts payload
also stops it, and none of these is ever followed by further requests. -/
theorem pagination_request_contract :
    ∀ (mp : Nat) (gf : Nat → GiftsPage) (af : Nat → Page Auction),
    (fetch_tonnel_gifts_requests gf mp =
        List.range' 1 (fetch_tonnel_gifts_requests gf mp).length ∧
      (fetch_tonnel_gifts_requests gf mp).length ≤ mp ∧
      ∀ p, p ∈ fetch_tonnel_gifts_requests gf mp ↔
        (1 ≤ p ∧ p ≤ mp ∧ ∀ r, 1 ≤ r → r < p → goodGiftsPage gf r)) ∧
    (fetch_tonnel_auctions_requests af mp =
        List.range' 1 (fetch_tonnel_auctions_requests af mp).length ∧
      (fetch_tonnel_auctions_requests af mp).length ≤ mp ∧
      ∀ p, p ∈ fetch_tonnel_auctions_requests af mp ↔
        (1 ≤ p ∧ p ≤ mp ∧ ∀ r, 1 ≤ r → r < p → goodPage af r)) := by
  intro mp gf af
  constructor
  · obtain ⟨h1, h2, h3⟩ := giftsPaginate_requests_spec gf mp 1
    refine ⟨h1, h2, ?_⟩
    intro p
    rw [fetch_tonnel_gifts_requests, h3 p]
    constructor
    · rintro ⟨a, b, c⟩
      exact ⟨a, by omega, c⟩
    · rintro ⟨a, b, c⟩
      exact ⟨a, by omega, c⟩
  · obtain ⟨h1, h2, h3⟩ := paginate_snd_spec af mp 1
    refine ⟨h1, h2, ?_⟩
    intro p
    rw [fetch_tonnel_auctions_requests, h3 p]
    constructor
    · rintro ⟨a, b, c⟩
      exact ⟨a, by omega, c⟩
    · rintro ⟨a, b, c⟩
      exact ⟨a, by omega, c⟩

/-- C7 witness: with a gifts page oracle whose page 1 is a full list and
page 2 short, page 2 is requested (with `max_pages = 20`), by the request
characterisation of `pagination_request_contract`. -/
theorem pagination_request_contract_witness :
    2 ∈ fetch_tonnel_gifts_requests exPagedGiftsFetch 20 :=
  ((pagination_request_contract 20 exPagedGiftsFetch
      exPagedAucFetch).1.2.2 2).mpr
    ⟨by omega, by omega, fun r h1 h2 => by
      have hr : r = 1 := by omega
      subst hr
      exact Or.inl ⟨List.replicate 30 exGift, rfl, by simp⟩⟩

/-- C8: the claimed stop-and-keep on malformed pages holds for
`fetch_tonnel_auctions` (last conjunct) and for the gifts fetcher's
caught-exception path (third conjunct), but `fetch_tonnel_gifts` itself
diverges from it — its `if not gifts_page` / `isinstance(..., str)` checks
miss truthy non-string non-list payloads, contradicting the code's own
comments ("If the API returned an empty response or a non-list, stop
scanning", lines 336-340).  With page 1 a full list of 30 records: a truthy
one-key dict payload on page 2 is `extend`-ed, appending its key string to
the returned records instead of returning the accumulated records as they
were (first conjunct); and a truthy non-iterable payload on page 2 makes
`all_gifts.extend` raise an uncaught `TypeError` out of the fetch, losing
the 30 accumulated records (second conjunct, `none`). -/
theorem gifts_nonlist_payload_divergence :
    fetch_tonnel_gifts exDictPayloadFetch 5
      = some (List.replicate 30 (TonnelRecord.parsed exGift)
          ++ [TonnelRecord.rawKey exName]) ∧
    fetch_tonnel_gifts exTypeErrorFetch 5 = none ∧
    fetch_tonnel_gifts exRaisedFetch 5
      = some (List.replicate 30 (TonnelRecord.parsed exGift)) ∧
    fetch_tonnel_auctions exNonListAucFetch 5
      = List.replicate 30 exScanAuction :=
  ⟨rfl, rfl, rfl, rfl⟩

-- ---------------------------------------------------------------------------
-- Theorem for claim C2
-- ---------------------------------------------------------------------------

/-- C2: the auction join does NOT look up the auction's canonical ModelKey.
`calculate_auction_flips` reads `portals_prices` with the raw
`(gift_name, model)` strings, while `scan_and_find` keys that map by the
normalised names; for the auction "Plush Pepe"/"Vintage" the canonical key
is present with a second quote of 12, yet the join yields no candidate
because the raw key differs from the canonical one. -/
theorem auction_join_uses_raw_key :
    calculate_auction_flips [exRawAuction] exCanonicalPrices 0 [] = [] ∧
    exCanonicalPrices.lookup
      (normalise_name exRawName, normalise_name exRawModel)
      = some (some 10, some 12) ∧
    (normalise_name exRawName, normalise_name exRawModel)
      ≠ (exRawName, exRawModel) := by
  refine ⟨?_, by decide, by decide⟩
  decide

-- ---------------------------------------------------------------------------
-- Dict lookup lemmas and theorems for claim C10
-- ---------------------------------------------------------------------------

theorem lookup_setKey {α β : Type} [BEq α] [LawfulBEq α]
    (m : List (α × β)) (k k' : α) (v : β) :
    (setKey m k v).lookup k' =
      if k' == k then (m.lookup k').map (fun _ => v) else m.lookup k' := by
  induction m with
  | nil => cases h : (k' == k) <;> simp [setKey, h]
  | cons p t ih =>
    obtain ⟨a, b⟩ := p
    simp only [setKey, List.map_cons] at ih ⊢
    by_cases ha : (a == k) = true <;> by_cases hk : (k' == k) = true <;>
      by_cases hka : (k' == a) = true <;>
      simp_all [List.lookup_cons, beq_eq_false_iff_ne]
    · rw [show (k' == k) = false from beq_eq_false_iff_ne.mpr hk]
    · rw [show (k == a) = false from beq_eq_false_iff_ne.mpr hka]

theorem lookup_dictSet {α β : Type} [BEq α] [LawfulBEq α]
    (m : List (α × β)) (k k' : α) (v : β) :
    (dictSet m k v).lookup k' = if k' == k then some v else m.lookup k' := by
  unfold dictSet
  by_cases hp : (m.lookup k).isSome = true
  · rw [if_pos hp, lookup_setKey]
    by_cases hk : (k' == k) = true
    · rw [if_pos hk, if_pos hk]
      have he : k' = k := by simpa using hk
      subst he
      obtain ⟨w, hw⟩ := Option.isSome_iff_exists.mp hp
      rw [hw]
      rfl
    · rw [if_neg hk, if_neg hk]
  · rw [if_neg hp, List.lookup_append]
    by_cases hk : (k' == k) = true
    · rw [if_pos hk]
      have he : k' = k := by simpa using hk
      subst he
      rw [Option.not_isSome_iff_eq_none.mp hp]
      simp
    · rw [if_neg hk]
      have hnone : (([(k, v)] : List (α × β)).lookup k') = none := by
        simp [List.lookup_cons, hk]
      rw [hnone, Option.or_none]

theorem scan_clean_foldl (k : Str) :
    ∀ (gifts : List Gift) (m : List (Str × Bool)),
      ((gifts.foldl scanCleanStep m).lookup k).getD true
        = (((m.lookup k).getD true) &&
            gifts.all fun g =>
              match falsyNone g.name with
              | none => true
              | some n => if normalise_name n = k then ! g.signature
                          else true) := by
  intro gifts
  induction gifts with
  | nil =>
    intro m
    simp
  | cons g t ih =>
    intro m
    rw [List.foldl_cons, List.all_cons, ih]
    have hstep : ((scanCleanStep m g).lookup k).getD true =
        (((m.lookup k).getD true) &&
          (match falsyNone g.name with
           | none => true
           | some n => if normalise_name n = k then ! g.signature
                       else true)) := by
      unfold scanCleanStep
      cases hn : falsyNone g.name with
      | none => simp
      | some n =>
        simp only
        rw [lookup_dictSet]
        by_cases hk : normalise_name n = k
        · rw [if_pos (by simpa using hk.symm), if_pos hk, hk]
          simp
        · rw [if_neg (by simpa using fun h => hk h.symm), if_neg hk]
          simp
    rw [hstep, Bool.and_assoc]

/-- C10: in the cleanliness map built by `scan_and_find` (Step 5), the flag
read for a gift key — with the same `True` default the auction join uses —
is `true` if and only if every fetched Tonnel plain listing whose
(truthy) name normalises to that key has a falsy signature; in particular a
key with no sampled listing at all reads as clean. -/
theorem scan_clean_status_spec :
    ∀ (gifts : List Gift) (k : Str),
    ((scan_clean_status gifts).lookup k).getD true = true ↔
      ∀ g ∈ gifts, ∀ n, falsyNone g.name = some n →
        normalise_name n = k → g.signature = false := by
  intro gifts k
  rw [scan_clean_status, scan_clean_foldl]
  simp only [List.lookup_nil, Option.getD_none, Bool.true_and,
    List.all_eq_true]
  constructor
  · intro h g hg n hn hk
    have hb := h g hg
    rw [hn] at hb
    simp only at hb
    rw [if_pos hk] at hb
    simpa using hb
  · intro h g hg
    cases hn : falsyNone g.name with
    | none => simp
    | some n =>
      simp only
      by_cases hk : normalise_name n = k
      · rw [if_pos hk]
        simpa using h g hg n hn hk
      · rw [if_neg hk]

/-- C10 witness: the single unsigned listing `exGift` leaves its gift key
clean, by the backward direction of `scan_clean_status_spec`. -/
theorem scan_clean_status_spec_witness :
    ((scan_clean_status [exGift]).lookup exName).getD true = true :=
  (scan_clean_status_spec [exGift] exName).mpr (by
    intro g hg n hn hk
    rw [List.mem_singleton] at hg
    subst hg
    rfl)

-- ---------------------------------------------------------------------------
-- Lemmas and theorems for claim C9
-- ---------------------------------------------------------------------------

theorem auctionFlipOne_nil_prices {minp : ℚ} {cs : List (Str × Bool)}
    {a : Auction} : auctionFlipOne [] minp cs a = none := by
  simp only [auctionFlipOne]
  split
  · split
    · rfl
    · rfl
  · rfl

theorem calculate_auction_flips_nil {au : List Auction} {minp : ℚ}
    {cs : List (Str × Bool)} : calculate_auction_flips au [] minp cs = [] := by
  simp only [calculate_auction_flips]
  induction au with
  | nil => rfl
  | cons a t ih => simp [List.filterMap_cons, auctionFlipOne_nil_prices, ih]

theorem profitDescLe_trans : ∀ (a b c : GiftCandidate),
    decide (b.profit_absolute ≤ a.profit_absolute) = true →
    decide (c.profit_absolute ≤ b.profit_absolute) = true →
    decide (c.profit_absolute ≤ a.profit_absolute) = true := by
  intro a b c h1 h2
  rw [decide_eq_true_eq] at *
  exact le_trans h2 h1

theorem profitDescLe_total : ∀ (a b : GiftCandidate),
    (decide (b.profit_absolute ≤ a.profit_absolute) ||
      decide (a.profit_absolute ≤ b.profit_absolute)) = true := by
  intro a b
  rcases le_total b.profit_absolute a.profit_absolute with h | h <;> simp [h]

theorem scan_ex_eval :
    scan_and_find exAucFetch exSearchResult exGiftFetchEmpty 0 100 0
      = [exScanCandAuction, exScanCandInternal] := by
  have hA : fetch_tonnel_auctions exAucFetch 5 = [exScanAuction] := rfl
  have hK : collect_model_keys [exScanAuction] = [(exName, exModelName)] := rfl
  have hP : fetch_portals_model_prices exSearchResult [(exName, exModelName)]
      0 100 = [((exName, exModelName), (some 10, some 12))] := rfl
  have hC : scan_clean_status (fetch_tonnel_gifts_listPages exGiftFetchEmpty 10)
      = [] := rfl
  have hAF : calculate_auction_flips [exScanAuction]
      [((exName, exModelName), (some 10, some 12))] 0 []
      = [exScanCandAuction] := by
    norm_num +decide [calculate_auction_flips, auctionFlipOne, auctionGiftName,
      auctionBuyPrice, falsyNone, exScanAuction, exScanCandAuction, exName,
      exModelName, normalise_name, strippedChar, lowerChar, List.lookup,
      List.filterMap, COMMISSION_RATE_TONNEL, COMMISSION_RATE_PORTALS,
      TRANSFER_FEE]
  have hIF : calculate_portals_internal_flips
      [((exName, exModelName), (some 10, some 12))] 0
      = [exScanCandInternal] := by
    norm_num +decide [calculate_portals_internal_flips, internalFlipOne,
      exScanCandInternal, exName, exModelName, List.filterMap,
      COMMISSION_RATE_PORTALS]
  simp only [scan_and_find]
  rw [hA, hK, hP, hC, hAF, hIF]
  simp only [show ([exScanAuction] : List Auction) = [] ↔ False by simp,
    show ([(exName, exModelName)] : List (Str × Str)) = [] ↔ False by simp,
    if_false]
  rw [show ([exScanCandAuction] ++ [exScanCandInternal] : List GiftCandidate)
    = [exScanCandAuction, exScanCandInternal] from rfl]
  rw [sortByProfitDesc]
  apply List.mergeSort_of_sorted
  refine List.Pairwise.cons ?_ (List.pairwise_singleton _ _)
  intro b hb
  rw [List.mem_singleton] at hb
  subst hb
  rw [decide_eq_true_eq]
  norm_num [exScanCandAuction, exScanCandInternal]

/-- C9: the sequence `scan_and_find` returns is sorted by descending
`profit_absolute`, contains no candidate whose `profit_percent` is below the
caller-supplied threshold, and the sort is stable: any pair that is a
sublist of the concatenation "auction flips then internal flips" with the
first profit at least the second (which covers ties) is still a sublist of
the result, so emission order among ties is preserved. -/
theorem scan_ranked_output :
    ∀ (aucFetch : Nat → Page Auction)
      (searchResult : (Str × Str) → Option (List (Option ℚ)))
      (giftFetch : Nat → Page Gift) (lo hi minp : ℚ),
    List.Pairwise (fun a b => b.profit_absolute ≤ a.profit_absolute)
      (scan_and_find aucFetch searchResult giftFetch lo hi minp) ∧
    (∀ c ∈ scan_and_find aucFetch searchResult giftFetch lo hi minp,
      ¬ c.profit_percent < minp) ∧
    (∀ a b : GiftCandidate, b.profit_absolute ≤ a.profit_absolute →
      List.Sublist [a, b]
        (calculate_auction_flips (fetch_tonnel_auctions aucFetch 5)
            (fetch_portals_model_prices searchResult
              (collect_model_keys (fetch_tonnel_auctions aucFetch 5)) lo hi)
            minp
            (scan_clean_status (fetch_tonnel_gifts_listPages giftFetch 10)) ++
          calculate_portals_internal_flips
            (fetch_portals_model_prices searchResult
              (collect_model_keys (fetch_tonnel_auctions aucFetch 5)) lo hi)
            minp) →
      List.Sublist [a, b]
        (scan_and_find aucFetch searchResult giftFetch lo hi minp)) := by
  intro af sr gf lo hi minp
  simp only [scan_and_find]
  split_ifs with h1 h2
  · refine ⟨List.Pairwise.nil, by simp, ?_⟩
    intro a b hle hsub
    rw [h1] at hsub
    exact hsub
  · refine ⟨List.Pairwise.nil, by simp, ?_⟩
    intro a b hle hsub
    rw [h2] at hsub
    rw [show fetch_portals_model_prices sr [] lo hi = [] from rfl,
      calculate_auction_flips_nil] at hsub
    exact hsub
  · refine ⟨?_, ?_, ?_⟩
    · refine List.Pairwise.imp (fun hab => of_decide_eq_true hab) ?_
      exact List.sorted_mergeSort profitDescLe_trans profitDescLe_total _
    · intro c hc
      simp only [sortByProfitDesc, List.mem_mergeSort] at hc
      rcases List.mem_append.mp hc with h | h
      · obtain ⟨a, ha, hone⟩ := List.mem_filterMap.mp h
        exact (auctionFlipOne_spec hone).2.2
      · obtain ⟨e, he, hone⟩ := List.mem_filterMap.mp h
        exact (internalFlipOne_spec hone).2.2
    · intro a b hle hsub
      exact List.pair_sublist_mergeSort profitDescLe_trans profitDescLe_total
        (decide_eq_true hle) hsub

/-- C9 witness: the threshold part of `scan_ranked_output`, instantiated at
the auction candidate of the concrete scan. -/
theorem scan_ranked_output_witness :
    ¬ exScanCandAuction.profit_percent < 0 :=
  (scan_ranked_output exAucFetch exSearchResult exGiftFetchEmpty 0 100 0).2.1
    exScanCandAuction (by rw [scan_ex_eval]; simp)
